import Mathlib

/-!
Shallow embedding of the threshold-adjustment core of the repository:
trace-engine/rules/rules_config.py (rule catalog), trace-engine/rules/threshold_adjuster.py
(the adjuster) and the severity banding of machine_explainer.py.
Numbers are modelled as exact rationals; Python's round(x, 2) is modelled as
round-half-to-even on hundredths.
-/

/-- Round half to even (banker's rounding), the tie-breaking rule of Python's
built-in round, on an exact rational. The floor is written q.num / q.den (an
exact integer division) so the definition evaluates by kernel reduction. -/
def roundHalfEven (q : ℚ) : ℤ :=
  let f := q.num / (q.den : ℤ)
  let r := q - f
  if r < 1/2 then f
  else if 1/2 < r then f + 1
  else if f % 2 = 0 then f else f + 1

lemma roundHalfEven_floor (q : ℚ) :
    roundHalfEven q =
      if q - ⌊q⌋ < 1/2 then ⌊q⌋
      else if 1/2 < q - ⌊q⌋ then ⌊q⌋ + 1
      else if ⌊q⌋ % 2 = 0 then ⌊q⌋ else ⌊q⌋ + 1 := by
  unfold roundHalfEven
  rw [show q.num / (q.den : ℤ) = ⌊q⌋ from Rat.floor_def.symm]

/-- Python round(x, 2): round to 2 decimal places, ties to even. -/
def round2 (q : ℚ) : ℚ :=
  (roundHalfEven (q * 100) : ℚ) / 100

/-- threshold_adjuster.py line 19: SAFETY_MARGIN = 0.05. -/
def SAFETY_MARGIN : ℚ := 5/100

/-- threshold_adjuster.py line 20: MAX_INCREASE_RATIO = 0.50 (renamed here). -/
def MAX_INCREASE : ℚ := 50/100

/-- ThresholdAdjuster.calculate_new_threshold (threshold_adjuster.py lines 84-105):
candidate = rejected_value * (1 + SAFETY_MARGIN), capped at
old_threshold * (1 + MAX_INCREASE_RATIO), then rounded to 2 decimals. -/
def calculate_new_threshold (old_threshold rejected_value : ℚ) : ℚ :=
  let cand := rejected_value * (1 + SAFETY_MARGIN)
  let max_allowed := old_threshold * (1 + MAX_INCREASE)
  let capped := if cand > max_allowed then max_allowed else cand
  round2 capped

lemma roundHalfEven_le (q : ℚ) : (roundHalfEven q : ℚ) ≤ q + 1/2 := by
  have h1 := Int.floor_le q
  have h2 := Int.lt_floor_add_one q
  rw [roundHalfEven_floor]
  split_ifs <;> push_cast <;> linarith

lemma le_roundHalfEven (q : ℚ) : q - 1/2 ≤ (roundHalfEven q : ℚ) := by
  have h1 := Int.floor_le q
  have h2 := Int.lt_floor_add_one q
  rw [roundHalfEven_floor]
  split_ifs <;> push_cast <;> linarith

lemma roundHalfEven_eq_of_lt_half (q : ℚ) (n : ℤ) (h1 : (n : ℚ) ≤ q)
    (h2 : q < (n : ℚ) + 1/2) : roundHalfEven q = n := by
  have hf : ⌊q⌋ = n := Int.floor_eq_iff.mpr ⟨h1, by linarith⟩
  rw [roundHalfEven_floor, hf, if_pos (by linarith)]

lemma roundHalfEven_eq_of_half_lt (q : ℚ) (n : ℤ) (h1 : (n : ℚ) + 1/2 < q)
    (h2 : q < (n : ℚ) + 1) : roundHalfEven q = n + 1 := by
  have hf : ⌊q⌋ = n := Int.floor_eq_iff.mpr ⟨by linarith, by linarith⟩
  rw [roundHalfEven_floor, hf, if_neg (by linarith), if_pos (by linarith)]

lemma round2_le (q : ℚ) : round2 q ≤ q + 1/200 := by
  unfold round2
  have h := roundHalfEven_le (q * 100)
  linarith

lemma le_round2 (q : ℚ) : q - 1/200 ≤ round2 q := by
  unfold round2
  have h := le_roundHalfEven (q * 100)
  linarith

lemma calculate_new_threshold_min (t v : ℚ) :
    calculate_new_threshold t v = round2 (min (v * (105/100)) (t * (150/100))) := by
  unfold calculate_new_threshold SAFETY_MARGIN MAX_INCREASE
  dsimp only
  split_ifs with h
  · rw [min_eq_right (by linarith)]
    congr 1
    norm_num
  · rw [min_eq_left (by linarith)]
    congr 1
    norm_num

/-- Claim C1: for every rejected feature value v and recorded old threshold t, the
computed new threshold equals round2(min(v * 1.05, t * 1.5)): the candidate
v * (1 + SAFETY_MARGIN) is clamped to t * (1 + MAX_INCREASE_RATIO) whenever it
exceeds it, and the result is rounded to 2 decimal places. -/
theorem calculate_new_threshold_eq_round2_min (t v : ℚ) :
    calculate_new_threshold t v = round2 (min (v * (105/100)) (t * (150/100))) :=
  calculate_new_threshold_min t v

/-- Claim C2, counterexample: at old threshold 4.004 and rejected value 100 the
result is round2(6.006) = 6.01, which exceeds oldThreshold * 1.5 = 6.006 and falls
far below the rejected value 100 — both bounds of the claim fail at this input. -/
theorem threshold_bounds_counterexample :
    0 < (4004/1000 : ℚ) ∧
    (4004/1000 : ℚ) * (150/100) < calculate_new_threshold (4004/1000) 100 ∧
    calculate_new_threshold (4004/1000) 100 < 100 := by
  have h : calculate_new_threshold (4004/1000) 100 = 601/100 := by
    rw [calculate_new_threshold_min, min_eq_right (by norm_num)]
    unfold round2
    rw [show (4004/1000 : ℚ) * (150/100) * 100 = 3003/5 by norm_num]
    rw [roundHalfEven_eq_of_half_lt (3003/5) 600 (by norm_num) (by norm_num)]
    norm_num
  refine ⟨by norm_num, ?_, ?_⟩ <;> rw [h] <;> norm_num

/-- Claim C2, amended: for oldThreshold > 0 the new threshold never exceeds
oldThreshold * 1.5 by more than the final rounding step can add (1/200, i.e. half a
hundredth), and it never falls below rejectedValue provided the candidate is not
capped (rejectedValue * 1.05 ≤ oldThreshold * 1.5) and rejectedValue ≥ 0.1. -/
theorem threshold_bounds_amended (t v : ℚ) (_ht : 0 < t) :
    calculate_new_threshold t v ≤ t * (150/100) + 1/200 ∧
    (1/10 ≤ v → v * (105/100) ≤ t * (150/100) → v ≤ calculate_new_threshold t v) := by
  constructor
  · rw [calculate_new_threshold_min]
    have h1 := round2_le (min (v * (105/100)) (t * (150/100)))
    have h2 : min (v * (105/100)) (t * (150/100)) ≤ t * (150/100) := min_le_right _ _
    linarith
  · intro hv hcap
    rw [calculate_new_threshold_min, min_eq_left hcap]
    have h1 := le_round2 (v * (105/100))
    linarith

/-- Concrete instance of the amended C2 bounds at oldThreshold 4, rejectedValue 4.5. -/
theorem threshold_bounds_amended_witness :
    calculate_new_threshold 4 (9/2) ≤ 4 * (150/100) + 1/200 ∧
    (9/2 : ℚ) ≤ calculate_new_threshold 4 (9/2) := by
  have h := threshold_bounds_amended 4 (9/2) (by norm_num)
  exact ⟨h.1, h.2 (by norm_num) (by norm_num)⟩

/-- One rule of the catalog (rules_config.py): name, feature, comparison operator,
threshold and confidence delta. -/
structure Rule where
  rule : String
  feature : String
  comparison : String
  threshold : ℚ
  confidence_delta : ℚ
deriving DecidableEq

/-- The RULES table of rules_config.py: a mapping (insertion-ordered, unique keys)
from component id to its ordered rule list, modelled as an association list. -/
abbrev Catalog := List (String × List Rule)

/-- The literal RULES table of rules_config.py lines 1-92. -/
def RULES : Catalog :=
  [("PUMP",
    [⟨"PUMP_VIBRATION_CRITICAL", "vibration_rms", ">", 4, 35/100⟩,
     ⟨"PUMP_TEMP_SPIKE", "temperature_delta", ">", 5, 30/100⟩,
     ⟨"PUMP_OVERHEAT", "temperature_c", ">", 95, 40/100⟩,
     ⟨"PUMP_HIGH_LOAD", "load_avg", ">", 85, 20/100⟩]),
   ("CONVEYOR",
    [⟨"CONVEYOR_VIB_TRENDING", "vibration_trend", ">", 15/10, 25/100⟩,
     ⟨"CONVEYOR_MOTOR_HEAT", "temperature_c", ">", 80, 30/100⟩,
     ⟨"CONVEYOR_LOAD_PEAK", "load_avg", ">", 90, 20/100⟩,
     ⟨"CONVEYOR_VIB_SPIKE", "vibration_delta", ">", 8/10, 20/100⟩]),
   ("COMPRESSOR",
    [⟨"COMP_DISCHARGE_TEMP", "temperature_c", ">", 50, 20/100⟩,
     ⟨"COMP_VIB_INSTABILITY", "vibration_rms", ">", 744/100, 50/100⟩,
     ⟨"COMP_RAPID_WARMING", "temperature_delta", ">", 557/100, 20/100⟩,
     ⟨"COMP_OVERLOAD", "load_avg", ">", 9828/100, 35/100⟩])]

/-- The rule-list loop of update_threshold (rules_config.py lines 111-116): the first
rule whose name matches gets its threshold field replaced; the boolean reports
whether a match was found. -/
def updateRules (rule_name : String) (new_threshold : ℚ) : List Rule → Bool × List Rule
  | [] => (false, [])
  | r :: rs =>
    if r.rule = rule_name then (true, { r with threshold := new_threshold } :: rs)
    else
      let p := updateRules rule_name new_threshold rs
      (p.1, r :: p.2)

/-- rules_config.update_threshold (lines 96-116): returns false if the component is
not in the table, otherwise updates the first rule with the given name in place and
returns true (false if no rule matches). -/
def update_threshold (cat : Catalog) (component_id rule_name : String)
    (new_threshold : ℚ) : Bool × Catalog :=
  match cat with
  | [] => (false, [])
  | e :: rest =>
    if e.1 = component_id then
      let p := updateRules rule_name new_threshold e.2
      (p.1, (e.1, p.2) :: rest)
    else
      let p := update_threshold rest component_id rule_name new_threshold
      (p.1, e :: p.2)

/-- The rule-list loop of get_threshold (rules_config.py lines 132-136). -/
def getThresholdRules (rule_name : String) : List Rule → Option ℚ
  | [] => none
  | r :: rs => if r.rule = rule_name then some r.threshold else getThresholdRules rule_name rs

/-- rules_config.get_threshold (lines 118-136): None if the component or rule is
unknown, otherwise the current threshold of the first rule with that name. -/
def get_threshold (cat : Catalog) (component_id rule_name : String) : Option ℚ :=
  match cat with
  | [] => none
  | e :: rest =>
    if e.1 = component_id then getThresholdRules rule_name e.2
    else get_threshold rest component_id rule_name

lemma updateRules_fst_false (n : String) (v : ℚ) (rs : List Rule)
    (h : (updateRules n v rs).1 = false) : (updateRules n v rs).2 = rs := by
  induction rs with
  | nil => rfl
  | cons r rs ih =>
    by_cases hr : r.rule = n
    · simp [updateRules, hr] at h
    · simp only [updateRules, if_neg hr] at h ⊢
      rw [ih h]

lemma update_threshold_fst_false (cat : Catalog) (c n : String) (v : ℚ)
    (h : (update_threshold cat c n v).1 = false) : (update_threshold cat c n v).2 = cat := by
  induction cat with
  | nil => rfl
  | cons e rest ih =>
    by_cases he : e.1 = c
    · simp only [update_threshold, if_pos he] at h ⊢
      rw [updateRules_fst_false n v e.2 h]
    · simp only [update_threshold, if_neg he] at h ⊢
      rw [ih h]

lemma updateRules_fst_true (n : String) (v : ℚ) (rs : List Rule)
    (h : (updateRules n v rs).1 = true) :
    ∃ rs1 r rs2, rs = rs1 ++ r :: rs2 ∧ (∀ x ∈ rs1, x.rule ≠ n) ∧ r.rule = n ∧
      (updateRules n v rs).2 = rs1 ++ { r with threshold := v } :: rs2 := by
  induction rs with
  | nil => simp [updateRules] at h
  | cons r rs ih =>
    by_cases hr : r.rule = n
    · exact ⟨[], r, rs, by simp, by simp, hr, by simp [updateRules, hr]⟩
    · simp only [updateRules, if_neg hr] at h
      obtain ⟨rs1, r1, rs2, hdec, hpre, hr1, hsnd⟩ := ih h
      refine ⟨r :: rs1, r1, rs2, by rw [hdec]; rfl, ?_, hr1, ?_⟩
      · intro x hx
        rcases List.mem_cons.mp hx with hx | hx
        · rw [hx]; exact hr
        · exact hpre x hx
      · simp only [updateRules, if_neg hr]
        rw [hsnd]; rfl

/-- Claim C9: frame property of update_threshold. If the call returns true, the
catalog decomposes around the first entry for the component and the first rule with
the given name inside it, and the result differs from the input only in that rule's
threshold field; if it returns false, the catalog is returned unchanged. -/
theorem update_threshold_frame (cat : Catalog) (c n : String) (v : ℚ) :
    ((update_threshold cat c n v).1 = false → (update_threshold cat c n v).2 = cat) ∧
    ((update_threshold cat c n v).1 = true →
      ∃ pre post rs1 rs2 r, (∀ e ∈ pre, e.1 ≠ c) ∧ (∀ x ∈ rs1, x.rule ≠ n) ∧ r.rule = n ∧
        cat = pre ++ (c, rs1 ++ r :: rs2) :: post ∧
        (update_threshold cat c n v).2 =
          pre ++ (c, rs1 ++ { r with threshold := v } :: rs2) :: post) := by
  refine ⟨update_threshold_fst_false cat c n v, ?_⟩
  induction cat with
  | nil => intro h; simp [update_threshold] at h
  | cons e rest ih =>
    intro h
    by_cases he : e.1 = c
    · simp only [update_threshold, if_pos he] at h ⊢
      obtain ⟨rs1, r, rs2, hdec, hpre, hr, hsnd⟩ := updateRules_fst_true n v e.2 h
      refine ⟨[], rest, rs1, rs2, r, by simp, hpre, hr, ?_, ?_⟩
      · rw [List.nil_append, ← he, ← hdec]
      · rw [hsnd, he]; rfl
    · simp only [update_threshold, if_neg he] at h ⊢
      obtain ⟨pre, post, rs1, rs2, r, hpre, hrs1, hr, hdec, hsnd⟩ := ih h
      refine ⟨e :: pre, post, rs1, rs2, r, ?_, hrs1, hr, ?_, ?_⟩
      · intro x hx
        rcases List.mem_cons.mp hx with hx | hx
        · rw [hx]; exact he
        · exact hpre x hx
      · rw [hdec]; rfl
      · rw [hsnd]; rfl

lemma getThresholdRules_updateRules (n : String) (v : ℚ) (rs : List Rule)
    (h : (getThresholdRules n rs).isSome) :
    (updateRules n v rs).1 = true ∧ getThresholdRules n (updateRules n v rs).2 = some v := by
  induction rs with
  | nil => simp [getThresholdRules] at h
  | cons r rs ih =>
    by_cases hr : r.rule = n
    · refine ⟨by simp [updateRules, hr], ?_⟩
      simp [updateRules, hr, getThresholdRules]
    · simp only [getThresholdRules, if_neg hr] at h
      have hrec := ih h
      refine ⟨?_, ?_⟩
      · simp only [updateRules, if_neg hr]
        exact hrec.1
      · simp only [updateRules, if_neg hr, getThresholdRules]
        exact hrec.2

/-- Claim C4, counterexample: update_threshold performs no validation of the new
value: called with -5 it returns true and the stored PUMP_VIBRATION_CRITICAL
threshold becomes -5, contradicting the claim that non-positive values are rejected
and never stored. -/
theorem invalid_threshold_counterexample :
    (update_threshold RULES "PUMP" "PUMP_VIBRATION_CRITICAL" (-5)).1 = true ∧
    get_threshold (update_threshold RULES "PUMP" "PUMP_VIBRATION_CRITICAL" (-5)).2
      "PUMP" "PUMP_VIBRATION_CRITICAL" = some (-5) := by
  simp [RULES, update_threshold, updateRules, get_threshold, getThresholdRules]

/-- Claim C4, amended: update_threshold accepts every value without validation:
whenever the component and rule exist, the call succeeds and the value — finite,
non-finite-in-spirit, zero or negative alike — is stored verbatim; the call fails
(returning false, state unchanged) only when the component or rule is unknown. -/
theorem update_threshold_accepts_any_value (cat : Catalog) (c n : String) (v : ℚ)
    (h : (get_threshold cat c n).isSome) :
    (update_threshold cat c n v).1 = true ∧
    get_threshold (update_threshold cat c n v).2 c n = some v := by
  induction cat with
  | nil => simp [get_threshold] at h
  | cons e rest ih =>
    by_cases he : e.1 = c
    · simp only [get_threshold, if_pos he] at h
      have hr := getThresholdRules_updateRules n v e.2 h
      refine ⟨?_, ?_⟩
      · simp only [update_threshold, if_pos he]
        exact hr.1
      · simp only [update_threshold, if_pos he, get_threshold]
        exact hr.2
    · simp only [get_threshold, if_neg he] at h
      have hrec := ih h
      refine ⟨?_, ?_⟩
      · simp only [update_threshold, if_neg he]
        exact hrec.1
      · simp only [update_threshold, if_neg he, get_threshold]
        exact hrec.2

/-- Concrete instance of the amended C4: an arbitrary new value 123.4 is accepted
and stored for an existing CONVEYOR rule. -/
theorem update_threshold_accepts_any_value_witness :
    (update_threshold RULES "CONVEYOR" "CONVEYOR_LOAD_PEAK" (1234/10)).1 = true ∧
    get_threshold (update_threshold RULES "CONVEYOR" "CONVEYOR_LOAD_PEAK" (1234/10)).2
      "CONVEYOR" "CONVEYOR_LOAD_PEAK" = some (1234/10) :=
  update_threshold_accepts_any_value RULES "CONVEYOR" "CONVEYOR_LOAD_PEAK" (1234/10)
    (by simp [RULES, get_threshold, getThresholdRules])

/-- Concrete instance of the C9 frame property: an unknown rule name leaves the
catalog unchanged, and updating PUMP_TEMP_SPIKE decomposes RULES as described. -/
theorem update_threshold_frame_witness :
    (update_threshold RULES "PUMP" "NO_SUCH_RULE" 6).2 = RULES ∧
    (∃ pre post rs1 rs2 r,
      (∀ e ∈ pre, e.1 ≠ "PUMP") ∧ (∀ x ∈ rs1, x.rule ≠ "PUMP_TEMP_SPIKE") ∧
      r.rule = "PUMP_TEMP_SPIKE" ∧
      RULES = pre ++ ("PUMP", rs1 ++ r :: rs2) :: post ∧
      (update_threshold RULES "PUMP" "PUMP_TEMP_SPIKE" 6).2 =
        pre ++ ("PUMP", rs1 ++ { r with threshold := 6 } :: rs2) :: post) :=
  ⟨(update_threshold_frame RULES "PUMP" "NO_SUCH_RULE" 6).1
      (by simp [RULES, update_threshold, updateRules]),
   (update_threshold_frame RULES "PUMP" "PUMP_TEMP_SPIKE" 6).2
      (by simp [RULES, update_threshold, updateRules])⟩

/-- One entry of a reasoning trace as read by the adjuster
(threshold_adjuster.py lines 141-147): any of the fields it touches may be absent
in the JSON data. rule_result is carried by the data but never read by the adjuster. -/
structure TraceStep where
  rule : Option String
  feature : Option String
  feature_value : Option ℚ
  threshold : Option ℚ
  rule_result : Option String
deriving DecidableEq

/-- The alert context read from the post-decision trace
(threshold_adjuster.py lines 128-130): component_id may be absent (or empty, which
Python treats the same), rules_triggered and reasoning_trace default to [] when
absent. -/
structure AlertContext where
  component_id : Option String
  rules_triggered : List String
  reasoning_trace : List TraceStep
deriving DecidableEq

/-- Content of post_decision_trace.json as handled by get_alert_context
(threshold_adjuster.py lines 78-82): either a wrapper object holding the context
under an input_trace key, or the context object itself. -/
inductive TraceData where
  | nested (inner : AlertContext)
  | flat (ctx : AlertContext)
deriving DecidableEq

/-- One entry of interaction_logs.json. input_trace is present in the data written
by machine_explainer.log_interaction but is never read by the adjuster. -/
structure LogEntry where
  timestamp : String
  input_trace : Option AlertContext
  user_feedback : Option String
deriving DecidableEq

/-- The scan of find_latest_rejection over reversed(logs)
(threshold_adjuster.py lines 61-63): first entry whose user_feedback is Rejected. -/
def findRejected : List LogEntry → Option LogEntry
  | [] => none
  | e :: rest => if e.user_feedback = some "Rejected" then some e else findRejected rest

/-- ThresholdAdjuster.find_latest_rejection (lines 49-65): none when the log file is
missing, malformed or empty, otherwise the most recent Rejected entry. -/
def find_latest_rejection (logs : Option (List LogEntry)) : Option LogEntry :=
  match logs with
  | none => none
  | some l => if l.isEmpty then none else findRejected l.reverse

/-- ThresholdAdjuster.get_alert_context (lines 67-82): none when the trace file is
missing or unreadable; otherwise the input_trace member when present, else the
top-level object. -/
def get_alert_context : Option TraceData → Option AlertContext
  | none => none
  | some (TraceData.nested inner) => some inner
  | some (TraceData.flat ctx) => some ctx

/-- How a run of ThresholdAdjuster.process_rejection ends. noRejection and done are
the normal outcomes (the method returns False resp. its adjustments_made flag);
noContext and missingFields are the two error prints followed by return False;
crash is the ZeroDivisionError raised by the progress print at line 155 when a
step's recorded threshold is 0. -/
inductive RunOutcome where
  | noRejection
  | noContext
  | missingFields
  | crash
  | done (adjustments_made : Bool)
deriving DecidableEq

/-- One audit-trail record appended at threshold_adjuster.py lines 162-171. The
wall-clock timestamp field is outside the model. -/
structure AdjustRecord where
  rule : String
  component : String
  feature : Option String
  old_threshold : ℚ
  new_threshold : ℚ
  rejected_value : ℚ
  reason : String
deriving DecidableEq

/-- Builds the audit record of threshold_adjuster.py lines 162-171. -/
def mkAdjustRecord (cid : String) (s : TraceStep) (rn : String) (t v nt : ℚ) :
    AdjustRecord :=
  ⟨rn, cid, s.feature, t, nt, v, "User rejected alert - value now considered normal"⟩

/-- The guard of threshold_adjuster.py line 146: a step is processed only when its
rule name is present and truthy and feature_value and threshold are present. -/
def stepQualifies (s : TraceStep) : Bool :=
  match s.rule, s.feature_value, s.threshold with
  | some rn, some _, some _ => if rn = "" then false else true
  | _, _, _ => false

/-- The per-step loop of process_rejection (threshold_adjuster.py lines 141-176):
skip steps failing the field guard; compute the new threshold; the progress print at
line 155 divides by the step's recorded old threshold, so a zero threshold raises
ZeroDivisionError (crash); otherwise call update_threshold, appending an audit
record and setting adjustments_made only when it returns true. -/
def processSteps (cid : String) : List TraceStep → List AdjustRecord → Catalog → Bool →
    RunOutcome × List AdjustRecord × Catalog
  | [], recs, cat, made => (RunOutcome.done made, recs, cat)
  | s :: rest, recs, cat, made =>
    match s.rule, s.feature_value, s.threshold with
    | some rn, some v, some t =>
      if rn = "" then processSteps cid rest recs cat made
      else
        let nt := calculate_new_threshold t v
        if t = 0 then (RunOutcome.crash, recs, cat)
        else
          let p := update_threshold cat cid rn nt
          if p.1 then processSteps cid rest (recs ++ [mkAdjustRecord cid s rn t v nt]) p.2 true
          else processSteps cid rest recs p.2 made
    | _, _, _ => processSteps cid rest recs cat made

/-- ThresholdAdjuster.process_rejection (threshold_adjuster.py lines 107-177),
as a function of the interaction log content, the post-decision trace content and
the catalog state: returns the outcome, the accumulated audit records
(self.adjustments) and the resulting catalog. -/
def process_rejection (logs : Option (List LogEntry)) (trace : Option TraceData)
    (cat : Catalog) : RunOutcome × List AdjustRecord × Catalog :=
  match find_latest_rejection logs with
  | none => (RunOutcome.noRejection, [], cat)
  | some _ =>
    match get_alert_context trace with
    | none => (RunOutcome.noContext, [], cat)
    | some ctx =>
      if ctx.component_id.getD "" = "" ∨ ctx.rules_triggered = [] then
        (RunOutcome.missingFields, [], cat)
      else
        processSteps (ctx.component_id.getD "") ctx.reasoning_trace [] cat false

/-- A Rejected log entry carrying no input_trace at all. -/
def rejectedEntryNoTrace : LogEntry := ⟨"t0", none, some "Rejected"⟩

/-- An interaction log whose only entry is a Rejected one without input_trace. -/
def logsRejected : Option (List LogEntry) := some [rejectedEntryNoTrace]

/-- A fully populated reasoning step for PUMP_VIBRATION_CRITICAL: value 4.6 against
threshold 4. -/
def goodStep : TraceStep :=
  ⟨some "PUMP_VIBRATION_CRITICAL", some "vibration_rms", some (23/5), some 4, some "FIRED"⟩

/-- A valid alert context for PUMP with a single fully populated step. -/
def ctxGood : AlertContext := ⟨some "PUMP", ["PUMP_VIBRATION_CRITICAL"], [goodStep]⟩

/-- Claim C3, counterexample: the latest Rejected entry carries no inputTrace at all,
so by the claim the run must fail with MalformedTrace; instead the code loads the
alert context from the separately stored post-decision trace file and completes
successfully with an adjustment. -/
theorem malformed_trace_check_counterexample :
    rejectedEntryNoTrace.input_trace = none ∧
    find_latest_rejection logsRejected = some rejectedEntryNoTrace ∧
    (process_rejection logsRejected (some (TraceData.flat ctxGood)) RULES).1 =
      RunOutcome.done true ∧
    (process_rejection logsRejected (some (TraceData.flat ctxGood)) RULES).2.1 ≠ [] := by
  norm_num [process_rejection, find_latest_rejection, findRejected, get_alert_context,
    processSteps, logsRejected, rejectedEntryNoTrace, ctxGood, goodStep, RULES,
    update_threshold, updateRules, mkAdjustRecord,
    show ("PUMP" : String) ≠ "" from by decide,
    show ("PUMP_VIBRATION_CRITICAL" : String) ≠ "" from by decide]

/-- Claim C3, amended: after a Rejected entry is found, the alert context comes from
the separately loaded post-decision trace (its input_trace member when nested), not
from the log entry: the run fails (missingFields, no records, catalog untouched)
exactly when the context's component_id is absent/empty or rules_triggered is
absent/empty; an absent reasoning_trace does not fail but yields a no-adjustment
run; and the result is entirely independent of which Rejected entry was found. -/
theorem alert_context_field_check (logs : Option (List LogEntry))
    (trace : Option TraceData) (cat : Catalog) (ctx : AlertContext)
    (h1 : (find_latest_rejection logs).isSome)
    (h2 : get_alert_context trace = some ctx) :
    ((ctx.component_id.getD "" = "" ∨ ctx.rules_triggered = []) →
      process_rejection logs trace cat = (RunOutcome.missingFields, [], cat)) ∧
    (ctx.component_id.getD "" ≠ "" → ctx.rules_triggered ≠ [] →
      ctx.reasoning_trace = [] →
      process_rejection logs trace cat = (RunOutcome.done false, [], cat)) ∧
    (∀ logs2 : Option (List LogEntry), (find_latest_rejection logs2).isSome →
      process_rejection logs2 trace cat = process_rejection logs trace cat) := by
  obtain ⟨e, he⟩ := Option.isSome_iff_exists.mp h1
  refine ⟨?_, ?_, ?_⟩
  · intro hcond
    simp only [process_rejection, he, h2]
    rw [if_pos hcond]
  · intro hc1 hc2 htr
    simp only [process_rejection, he, h2]
    rw [if_neg (by push_neg; exact ⟨hc1, hc2⟩), htr]
    rfl
  · intro logs2 hl2
    obtain ⟨e2, he2⟩ := Option.isSome_iff_exists.mp hl2
    simp only [process_rejection, he, he2]

/-- A valid alert context for PUMP with no reasoning trace at all. -/
def ctxNoSteps : AlertContext := ⟨some "PUMP", ["PUMP_VIBRATION_CRITICAL"], []⟩

/-- Concrete instance of the amended C3: with component_id and rules_triggered
present but reasoning_trace absent, the run completes without failure and without
adjustments. -/
theorem alert_context_field_check_witness :
    process_rejection logsRejected (some (TraceData.flat ctxNoSteps)) RULES =
      (RunOutcome.done false, [], RULES) :=
  (alert_context_field_check logsRejected (some (TraceData.flat ctxNoSteps)) RULES
    ctxNoSteps
    (by simp [find_latest_rejection, findRejected, logsRejected, rejectedEntryNoTrace])
    rfl).2.1 (by decide) (by decide) rfl

lemma findRejected_eq_none (l : List LogEntry)
    (h : ∀ e ∈ l, e.user_feedback ≠ some "Rejected") : findRejected l = none := by
  induction l with
  | nil => rfl
  | cons e rest ih =>
    rw [findRejected, if_neg (h e (List.mem_cons_self e rest))]
    exact ih fun x hx => h x (List.mem_cons_of_mem e hx)

/-- Claim C6: when the interaction log holds no Rejected entry (including a missing,
malformed or empty log), the run returns the no-rejection outcome with an empty
record list and the catalog completely unchanged. -/
theorem no_rejection_noop (logs : Option (List LogEntry)) (trace : Option TraceData)
    (cat : Catalog)
    (h : ∀ l, logs = some l → ∀ e ∈ l, e.user_feedback ≠ some "Rejected") :
    process_rejection logs trace cat = (RunOutcome.noRejection, [], cat) := by
  have hn : find_latest_rejection logs = none := by
    cases logs with
    | none => rfl
    | some l =>
      simp only [find_latest_rejection]
      by_cases hl : l.isEmpty
      · rw [if_pos hl]
      · rw [if_neg hl]
        exact findRejected_eq_none l.reverse fun e he => h l rfl e (List.mem_reverse.mp he)
  simp only [process_rejection, hn]

/-- An Accepted log entry. -/
def acceptedEntry : LogEntry := ⟨"t1", none, some "Accepted"⟩

/-- Concrete instance of C6: a log holding only an Accepted entry leads to the
no-rejection outcome with no records and the catalog unchanged. -/
theorem no_rejection_noop_witness :
    process_rejection (some [acceptedEntry]) (some (TraceData.flat ctxGood)) RULES =
      (RunOutcome.noRejection, [], RULES) :=
  no_rejection_noop (some [acceptedEntry]) (some (TraceData.flat ctxGood)) RULES
    (by
      intro l hl e he
      injection hl with hl2
      subst hl2
      simp only [List.mem_singleton] at he
      subst he
      decide)

/-- A fully populated step whose recorded threshold is 0. -/
def zeroStep : TraceStep :=
  ⟨some "PUMP_VIBRATION_CRITICAL", some "vibration_rms", some (23/5), some 0, some "FIRED"⟩

/-- A PUMP alert context whose only step records threshold 0. -/
def ctxZero : AlertContext := ⟨some "PUMP", ["PUMP_VIBRATION_CRITICAL"], [zeroStep]⟩

/-- Claim C5, counterexample: a step that has a rule name, a feature value and a
threshold (threshold 0) is not adjusted: the progress print divides by the old
threshold, so the run raises ZeroDivisionError before calling update_threshold,
appending no record and leaving the catalog unchanged. -/
theorem adjust_all_steps_counterexample :
    stepQualifies zeroStep = true ∧
    process_rejection logsRejected (some (TraceData.flat ctxZero)) RULES =
      (RunOutcome.crash, [], RULES) := by
  norm_num [stepQualifies, zeroStep, process_rejection, find_latest_rejection,
    findRejected, logsRejected, rejectedEntryNoTrace, get_alert_context, ctxZero,
    processSteps,
    show ("PUMP" : String) ≠ "" from by decide,
    show ("PUMP_VIBRATION_CRITICAL" : String) ≠ "" from by decide]

lemma processSteps_done (cid : String) (steps : List TraceStep) :
    ∀ (recs : List AdjustRecord) (cat : Catalog) (made : Bool),
    (∀ s ∈ steps, stepQualifies s = true → s.threshold ≠ some 0) →
    ∃ b, (processSteps cid steps recs cat made).1 = RunOutcome.done b := by
  induction steps with
  | nil => exact fun recs cat made _ => ⟨made, rfl⟩
  | cons s rest ih =>
    intro recs cat made h
    have hrest : ∀ x ∈ rest, stepQualifies x = true → x.threshold ≠ some 0 :=
      fun x hx => h x (List.mem_cons_of_mem s hx)
    have hs := h s (List.mem_cons_self s rest)
    rcases s with ⟨r, f, fv, th, rr⟩
    cases r with
    | none => simpa only [processSteps] using ih recs cat made hrest
    | some rn =>
      cases fv with
      | none => simpa only [processSteps] using ih recs cat made hrest
      | some v =>
        cases th with
        | none => simpa only [processSteps] using ih recs cat made hrest
        | some t =>
          by_cases hrn : rn = ""
          · simp only [processSteps, if_pos hrn]
            exact ih recs cat made hrest
          · have hq : stepQualifies ⟨some rn, f, some v, some t, rr⟩ = true := by
              simp [stepQualifies, hrn]
            have ht0 : t ≠ 0 := by
              intro h0
              exact hs hq (by rw [h0])
            simp only [processSteps, if_neg hrn, if_neg ht0]
            split_ifs with hp
            · exact ih _ _ _ hrest
            · exact ih _ _ _ hrest

/-- Claim C5, amended: during the per-step loop, provided a qualifying step's recorded
threshold is not 0 (threshold 0 makes the progress print crash the run), behavior is:
a step lacking rule name, feature value or threshold is skipped; a qualifying step is
processed regardless of its rule_result (the FIRED marker is never read); when
update_threshold returns false the step is skipped, the catalog is left as is, no
record is appended, and the loop continues; when it returns true exactly one audit
record is appended and the loop continues on the updated catalog; and under the
nonzero-threshold proviso the loop always terminates normally. -/
theorem adjust_steps_behavior (cid : String) (s : TraceStep) (rest : List TraceStep)
    (recs : List AdjustRecord) (cat : Catalog) (made : Bool) :
    (stepQualifies s = false →
      processSteps cid (s :: rest) recs cat made = processSteps cid rest recs cat made) ∧
    (∀ rn v t, s.rule = some rn → rn ≠ "" → s.feature_value = some v →
      s.threshold = some t → t ≠ 0 →
      ((update_threshold cat cid rn (calculate_new_threshold t v)).1 = false →
        processSteps cid (s :: rest) recs cat made =
          processSteps cid rest recs cat made) ∧
      ((update_threshold cat cid rn (calculate_new_threshold t v)).1 = true →
        processSteps cid (s :: rest) recs cat made =
          processSteps cid rest
            (recs ++ [mkAdjustRecord cid s rn t v (calculate_new_threshold t v)])
            (update_threshold cat cid rn (calculate_new_threshold t v)).2 true)) ∧
    (∀ s2 : TraceStep, s2.rule = s.rule → s2.feature = s.feature →
      s2.feature_value = s.feature_value → s2.threshold = s.threshold →
      processSteps cid (s2 :: rest) recs cat made =
        processSteps cid (s :: rest) recs cat made) ∧
    ((∀ x ∈ s :: rest, stepQualifies x = true → x.threshold ≠ some 0) →
      ∃ b, (processSteps cid (s :: rest) recs cat made).1 = RunOutcome.done b) := by
  refine ⟨?_, ?_, ?_, processSteps_done cid (s :: rest) recs cat made⟩
  · intro hq
    rcases s with ⟨r, f, fv, th, rr⟩
    cases r with
    | none => simp only [processSteps]
    | some rn =>
      cases fv with
      | none => simp only [processSteps]
      | some v =>
        cases th with
        | none => simp only [processSteps]
        | some t =>
          by_cases hrn : rn = ""
          · simp only [processSteps, if_pos hrn]
          · simp [stepQualifies, hrn] at hq
  · intro rn v t hr hrn hv ht ht0
    rcases s with ⟨r, f, fv, th, rr⟩
    simp only at hr hv ht
    subst hr
    subst hv
    subst ht
    constructor
    · intro hfalse
      simp only [processSteps, if_neg hrn, if_neg ht0, hfalse, Bool.false_eq_true,
        if_false]
      rw [update_threshold_fst_false _ _ _ _ hfalse]
    · intro htrue
      simp only [processSteps, if_neg hrn, if_neg ht0, htrue, if_true]
  · intro s2 h1 h2 h3 h4
    rcases s with ⟨r, f, fv, th, rr⟩
    rcases s2 with ⟨r2, f2, fv2, th2, rr2⟩
    simp only at h1 h2 h3 h4
    subst h1
    subst h2
    subst h3
    subst h4
    cases r2 with
    | none => simp only [processSteps]
    | some rn =>
      cases fv2 with
      | none => simp only [processSteps]
      | some v =>
        cases th2 with
        | none => simp only [processSteps]
        | some t =>
          simp only [processSteps, mkAdjustRecord]

/-- Concrete instance of the amended C5 at a fully populated PUMP step: the
successful update appends exactly one audit record and the loop continues on the
updated catalog. -/
theorem adjust_steps_behavior_witness :
    processSteps "PUMP" [goodStep] [] RULES false =
      processSteps "PUMP" []
        ([] ++ [mkAdjustRecord "PUMP" goodStep "PUMP_VIBRATION_CRITICAL" 4 (23/5)
          (calculate_new_threshold 4 (23/5))])
        (update_threshold RULES "PUMP" "PUMP_VIBRATION_CRITICAL"
          (calculate_new_threshold 4 (23/5))).2 true :=
  ((adjust_steps_behavior "PUMP" goodStep [] [] RULES false).2.1
    "PUMP_VIBRATION_CRITICAL" (23/5) 4 rfl (by decide) rfl rfl (by norm_num)).2
    (by simp [RULES, update_threshold, updateRules])

/-- The shape of a catalog: component ids and rule names in order, ignoring all
threshold and other numeric state. -/
def catalogShape (cat : Catalog) : List (String × List String) :=
  cat.map fun e => (e.1, e.2.map Rule.rule)

lemma updateRules_fst_shape (n : String) (v : ℚ) (rs1 : List Rule) :
    ∀ rs2 : List Rule, rs1.map Rule.rule = rs2.map Rule.rule →
    (updateRules n v rs1).1 = (updateRules n v rs2).1 := by
  induction rs1 with
  | nil =>
    intro rs2 h
    cases rs2 with
    | nil => rfl
    | cons r2 rs2 => simp at h
  | cons r rs ih =>
    intro rs2 h
    cases rs2 with
    | nil => simp at h
    | cons r2 rs2 =>
      simp only [List.map_cons, List.cons.injEq] at h
      obtain ⟨hname, htail⟩ := h
      by_cases hr : r.rule = n
      · rw [updateRules, updateRules, if_pos hr, if_pos (by rw [← hname]; exact hr)]
      · rw [updateRules, updateRules, if_neg hr, if_neg (by rw [← hname]; exact hr)]
        exact ih rs2 htail

lemma updateRules_snd_shape (n : String) (v : ℚ) (rs : List Rule) :
    (updateRules n v rs).2.map Rule.rule = rs.map Rule.rule := by
  induction rs with
  | nil => rfl
  | cons r rs ih =>
    by_cases hr : r.rule = n
    · simp [updateRules, hr]
    · simp only [updateRules, if_neg hr, List.map_cons]
      rw [ih]

lemma update_threshold_fst_shape (c n : String) (v : ℚ) (c1 : Catalog) :
    ∀ c2 : Catalog, catalogShape c1 = catalogShape c2 →
    (update_threshold c1 c n v).1 = (update_threshold c2 c n v).1 := by
  induction c1 with
  | nil =>
    intro c2 h
    cases c2 with
    | nil => rfl
    | cons e2 rest2 => simp [catalogShape] at h
  | cons e rest ih =>
    intro c2 h
    cases c2 with
    | nil => simp [catalogShape] at h
    | cons e2 rest2 =>
      simp only [catalogShape, List.map_cons, List.cons.injEq, Prod.mk.injEq] at h
      obtain ⟨⟨hid, hrules⟩, htail⟩ := h
      by_cases he : e.1 = c
      · rw [update_threshold, update_threshold, if_pos he, if_pos (by rw [← hid]; exact he)]
        exact updateRules_fst_shape n v e.2 e2.2 hrules
      · rw [update_threshold, update_threshold, if_neg he, if_neg (by rw [← hid]; exact he)]
        exact ih rest2 htail

lemma update_threshold_snd_shape (c n : String) (v : ℚ) (cat : Catalog) :
    catalogShape (update_threshold cat c n v).2 = catalogShape cat := by
  induction cat with
  | nil => rfl
  | cons e rest ih =>
    by_cases he : e.1 = c
    · simp only [update_threshold, if_pos he, catalogShape, List.map_cons]
      rw [updateRules_snd_shape]
    · simp only [update_threshold, if_neg he, catalogShape, List.map_cons]
      simp only [catalogShape] at ih
      rw [ih]

lemma processSteps_shape (cid : String) (steps : List TraceStep) :
    ∀ (recs : List AdjustRecord) (made : Bool) (c1 c2 : Catalog),
    catalogShape c1 = catalogShape c2 →
    (processSteps cid steps recs c1 made).1 = (processSteps cid steps recs c2 made).1 ∧
    (processSteps cid steps recs c1 made).2.1 = (processSteps cid steps recs c2 made).2.1 := by
  induction steps with
  | nil => exact fun recs made c1 c2 _ => ⟨rfl, rfl⟩
  | cons s rest ih =>
    intro recs made c1 c2 h
    rcases s with ⟨r, f, fv, th, rr⟩
    cases r with
    | none => simpa only [processSteps] using ih recs made c1 c2 h
    | some rn =>
      cases fv with
      | none => simpa only [processSteps] using ih recs made c1 c2 h
      | some v =>
        cases th with
        | none => simpa only [processSteps] using ih recs made c1 c2 h
        | some t =>
          by_cases hrn : rn = ""
          · simp only [processSteps, if_pos hrn]
            exact ih recs made c1 c2 h
          · by_cases ht0 : t = 0
            · simp only [processSteps, if_neg hrn, if_pos ht0]
              constructor <;> trivial
            · have hfst := update_threshold_fst_shape cid rn
                (calculate_new_threshold t v) c1 c2 h
              have hsnd : catalogShape
                  (update_threshold c1 cid rn (calculate_new_threshold t v)).2 =
                  catalogShape
                  (update_threshold c2 cid rn (calculate_new_threshold t v)).2 := by
                rw [update_threshold_snd_shape, update_threshold_snd_shape]
                exact h
              simp only [processSteps, if_neg hrn, if_neg ht0]
              by_cases hp : (update_threshold c1 cid rn (calculate_new_threshold t v)).1
              · rw [if_pos hp, if_pos (by rw [← hfst]; exact hp)]
                exact ih _ _ _ _ hsnd
              · rw [if_neg hp, if_neg (by rw [← hfst]; exact hp)]
                exact ih _ _ _ _ hsnd

/-- Claim C10: an adjustment run never reads the catalog's current threshold values:
over two catalogs with the same components and rule names but arbitrary thresholds,
the run has the same outcome and produces identical audit records (timestamps are
outside the model) — the old threshold entering the 50 percent cap is the one
recorded in the trace step. -/
theorem adjustment_catalog_noninterference (logs : Option (List LogEntry))
    (trace : Option TraceData) (c1 c2 : Catalog)
    (h : catalogShape c1 = catalogShape c2) :
    (process_rejection logs trace c1).1 = (process_rejection logs trace c2).1 ∧
    (process_rejection logs trace c1).2.1 = (process_rejection logs trace c2).2.1 := by
  cases hf : find_latest_rejection logs with
  | none => simp only [process_rejection, hf]; constructor <;> trivial
  | some e =>
    cases hc : get_alert_context trace with
    | none => simp only [process_rejection, hf, hc]; constructor <;> trivial
    | some ctx =>
      by_cases hcond : ctx.component_id.getD "" = "" ∨ ctx.rules_triggered = []
      · simp only [process_rejection, hf, hc, if_pos hcond]
        constructor <;> trivial
      · simp only [process_rejection, hf, hc, if_neg hcond]
        exact processSteps_shape _ _ _ _ c1 c2 h

/-- The catalog with PUMP_VIBRATION_CRITICAL set to 999: same shape as RULES,
different threshold state. -/
def RULES_alt : Catalog := (update_threshold RULES "PUMP" "PUMP_VIBRATION_CRITICAL" 999).2

/-- Concrete instance of C10: running the adjuster over RULES and over RULES_alt
yields the same outcome and the same audit records. -/
theorem adjustment_catalog_noninterference_witness :
    (process_rejection logsRejected (some (TraceData.flat ctxGood)) RULES).1 =
      (process_rejection logsRejected (some (TraceData.flat ctxGood)) RULES_alt).1 ∧
    (process_rejection logsRejected (some (TraceData.flat ctxGood)) RULES).2.1 =
      (process_rejection logsRejected (some (TraceData.flat ctxGood)) RULES_alt).2.1 :=
  adjustment_catalog_noninterference logsRejected (some (TraceData.flat ctxGood))
    RULES RULES_alt
    (by simp [RULES, RULES_alt, catalogShape, update_threshold, updateRules])

/-- SEVERITY_MAP of machine_explainer.py lines 11-16: ordered severity bands as
(lower bound, label) pairs. -/
def SEVERITY_MAP : List (ℚ × String) :=
  [(0, "low"), (4/10, "moderate"), (7/10, "high"), (9/10, "critical")]

/-- The loop of MachineExplainer._score_to_level over reversed(SEVERITY_MAP)
(machine_explainer.py lines 37-41): return the first label whose lower bound the
score reaches, defaulting to low. -/
def scanLevels (score : ℚ) : List (ℚ × String) → String
  | [] => "low"
  | p :: rest => if score ≥ p.1 then p.2 else scanLevels score rest

/-- MachineExplainer._score_to_level: scan the severity bands from the highest lower
bound downward. -/
def score_to_level (score : ℚ) : String := scanLevels score SEVERITY_MAP.reverse

/-- Claim C8: the banding scans from the highest lower bound downward and returns the
first band whose lower bound is at most the score: scores in [0.9, 1] map to
critical, [0.7, 0.9) to high, [0.4, 0.7) to moderate and [0, 0.4) to low. -/
theorem severity_banding (s : ℚ) :
    ((9/10 : ℚ) ≤ s → s ≤ 1 → score_to_level s = "critical") ∧
    ((7/10 : ℚ) ≤ s → s < 9/10 → score_to_level s = "high") ∧
    ((4/10 : ℚ) ≤ s → s < 7/10 → score_to_level s = "moderate") ∧
    ((0 : ℚ) ≤ s → s < 4/10 → score_to_level s = "low") := by
  have hrev : SEVERITY_MAP.reverse =
      [(9/10, "critical"), (7/10, "high"), (4/10, "moderate"), (0, "low")] := rfl
  refine ⟨?_, ?_, ?_, ?_⟩
  all_goals intro h1 h2
  all_goals unfold score_to_level
  all_goals rw [hrev]
  all_goals simp only [scanLevels]
  all_goals split_ifs <;> first | rfl | (exfalso; linarith)

/-- Concrete instances of the C8 banding at 0.95, 0.75, 0.5 and 0.2. -/
theorem severity_banding_witness :
    score_to_level (19/20) = "critical" ∧ score_to_level (3/4) = "high" ∧
    score_to_level (1/2) = "moderate" ∧ score_to_level (1/5) = "low" :=
  ⟨(severity_banding (19/20)).1 (by norm_num) (by norm_num),
   (severity_banding (3/4)).2.1 (by norm_num) (by norm_num),
   (severity_banding (1/2)).2.2.1 (by norm_num) (by norm_num),
   (severity_banding (1/5)).2.2.2 (by norm_num) (by norm_num)⟩

/-- A rule as it stands in the persisted rules_config.py text written by
save_rules_to_file (json.dumps of the RULES table): string fields verbatim, numeric
fields as exact decimal text, modelled for 2-decimal values as a count of
hundredths. -/
structure SavedRule where
  rule : String
  feature : String
  comparison : String
  threshold_centi : ℤ
  confidence_delta_centi : ℤ
deriving DecidableEq

/-- Serialization of one rule into the persisted form. -/
def saveRule (r : Rule) : SavedRule :=
  ⟨r.rule, r.feature, r.comparison, ⌊r.threshold * 100⌋, ⌊r.confidence_delta * 100⌋⟩

/-- Parsing one persisted rule back (reloading the rewritten rules_config.py). -/
def loadRule (s : SavedRule) : Rule :=
  ⟨s.rule, s.feature, s.comparison, (s.threshold_centi : ℚ) / 100,
   (s.confidence_delta_centi : ℚ) / 100⟩

/-- save_rules_to_file (rules_config.py lines 138-201) at the data level: the RULES
table is written out component by component, rule by rule, in order. -/
def save_catalog (cat : Catalog) : List (String × List SavedRule) :=
  cat.map fun e => (e.1, e.2.map saveRule)

/-- Reloading the persisted table. -/
def load_catalog (sc : List (String × List SavedRule)) : Catalog :=
  sc.map fun e => (e.1, e.2.map loadRule)

/-- Claim C7: persisting a catalog whose thresholds are already rounded to 2 decimals
(threshold * 100 is an integer) and reloading it preserves component order, rule
order, rule names, comparators and exact threshold values. -/
theorem catalog_roundtrip (cat : Catalog)
    (h : ∀ p ∈ cat, ∀ r ∈ p.2, ((⌊r.threshold * 100⌋ : ℚ) = r.threshold * 100)) :
    (load_catalog (save_catalog cat)).map
        (fun e => (e.1, e.2.map fun r => (r.rule, r.comparison, r.threshold))) =
      cat.map fun e => (e.1, e.2.map fun r => (r.rule, r.comparison, r.threshold)) := by
  unfold load_catalog save_catalog
  rw [List.map_map, List.map_map]
  apply List.map_congr_left
  intro p hp
  simp only [Function.comp_def, List.map_map]
  simp only [Prod.mk.injEq, true_and]
  apply List.map_congr_left
  intro r hr
  have ht := h p hp r hr
  simp only [Function.comp_def, saveRule, loadRule]
  simp only [Prod.mk.injEq, true_and]
  rw [ht]
  ring

/-- Concrete instance of C7: the full RULES table round-trips exactly. -/
theorem catalog_roundtrip_witness :
    (load_catalog (save_catalog RULES)).map
        (fun e => (e.1, e.2.map fun r => (r.rule, r.comparison, r.threshold))) =
      RULES.map fun e => (e.1, e.2.map fun r => (r.rule, r.comparison, r.threshold)) :=
  catalog_roundtrip RULES (by norm_num [RULES])
